import Mathlib

/-!
Shallow embedding of the agent-memory-api core (src/database.py, src/payment.py)
and verification of its specification claims.

Modelling conventions:
* Python dicts (insertion-ordered) become association lists `List (String × α)`;
  `d[k] = v` is `upsert` (replace in place, else append), `del d[k]` is `eraseKey`,
  `d.get(k)` is `lookup` (first match).
* Timestamps are `Nat` (abstract time units, one unit = one day for `ttl_days`);
  `datetime.utcnow()` becomes an explicit `now : Nat` parameter. ISO-8601 string
  comparison on `created_at` is order-isomorphic to comparison on `Nat`.
* The Fernet cipher is an external library: `encrypt : String → String` and
  `decrypt : String → Option String` are parameters (`none` models the
  decryption exception for malformed/corrupted/truncated ciphertext).
* The SHA-256-derived 16-hex-character id is an external hash: a parameter
  `genId : String → String → Nat → String` of (agent_id, content, now).
* Python floats (`storage_used_mb`) are modelled as exact rationals `ℚ`;
  `round(x, 2)` is modelled as round-to-nearest of `x*100` over `ℚ` (Python's
  half-to-even tie behaviour on binary floats differs only at exact ties, which
  no claim touches). Python ints are `Int`.
-/

namespace MemDb

/-- First-match lookup in an association list (`dict.get`). -/
def lookup (k : String) : List (String × α) → Option α
  | [] => none
  | (k', v) :: rest => if k' = k then some v else lookup k rest

/-- `d[k] = v` on an insertion-ordered dict: replace the first binding of `k`
in place, else append at the end. -/
def upsert (k : String) (v : α) : List (String × α) → List (String × α)
  | [] => [(k, v)]
  | (k', v') :: rest => if k' = k then (k, v) :: rest else (k', v') :: upsert k v rest

/-- `del d[k]`: remove the first binding of `k`. -/
def eraseKey (k : String) : List (String × α) → List (String × α)
  | [] => []
  | (k', v') :: rest => if k' = k then rest else (k', v') :: eraseKey k rest

/-- Apply `f` to the first binding of `k`, if present (in-place dict mutation). -/
def updateFirst (k : String) (f : α → α) : List (String × α) → List (String × α)
  | [] => []
  | (k', v') :: rest => if k' = k then (k', f v') :: rest else (k', v') :: updateFirst k f rest

/-- One stored memory record, as persisted in `db["memories"]`
(src/database.py, `store_memory`). `content` holds the ciphertext. -/
structure Memory where
  memory_id : String
  agent_id : String
  content : String
  tags : List String
  metadata : List (String × String)
  created_at : Nat
  expires_at : Option Nat
  access_count : Nat
  last_accessed : Option Nat
deriving Repr, DecidableEq

/-- One owner account, as persisted in `db["agents"]`. -/
structure Agent where
  agent_id : String
  total_memories : Int
  storage_used_mb : ℚ
  created_at : Nat
deriving Repr, DecidableEq

/-- The whole persisted store (`memories_db.json`). -/
structure Db where
  memories : List (String × Memory)
  agents : List (String × Agent)
deriving Repr, DecidableEq

/-- `MemoryDatabase._is_expired`: absent expiry never expires; otherwise the
record is expired exactly when `now` is strictly past `expires_at`. -/
def is_expired (now : Nat) : Option Nat → Bool
  | none => false
  | some t => decide (t < now)

/-- The dict returned by `store_memory`: id, owner, tags, metadata, timestamps
and a status string — the type has no field for the plaintext or the ciphertext. -/
structure StoreResult where
  memory_id : String
  agent_id : String
  tags : List String
  metadata : List (String × String)
  created_at : Nat
  expires_at : Option Nat
  status : String
deriving Repr, DecidableEq

/-- `MemoryDatabase.store_memory`: create the owner account on first use,
derive the id, encrypt, set `expires_at = now + ttl_days` when `ttl_days > 0`,
persist the encrypted record, bump the owner's counters, return the summary. -/
def store_memory (encrypt : String → String) (genId : String → String → Nat → String)
    (agent_id content : String) (tags? : Option (List String))
    (metadata? : Option (List (String × String))) (ttl_days : Int) (now : Nat)
    (db : Db) : StoreResult × Db :=
  let agents1 := if (lookup agent_id db.agents).isNone
    then db.agents ++ [(agent_id, ⟨agent_id, 0, 0, now⟩)] else db.agents
  let memory_id := genId agent_id content now
  let encrypted_content := encrypt content
  let expires_at : Option Nat := if 0 < ttl_days then some (now + ttl_days.toNat) else none
  let tags := tags?.getD []
  let metadata := metadata?.getD []
  let memory : Memory :=
    ⟨memory_id, agent_id, encrypted_content, tags, metadata, now, expires_at, 0, none⟩
  let storage_mb : ℚ := (encrypted_content.length : ℚ) / (1024 * 1024)
  let agents2 := updateFirst agent_id
    (fun a => { a with total_memories := a.total_memories + 1,
                       storage_used_mb := a.storage_used_mb + storage_mb }) agents1
  (⟨memory_id, agent_id, tags, metadata, now, expires_at, "stored"⟩,
   ⟨upsert memory_id memory db.memories, agents2⟩)

/-- The dict returned by a successful `retrieve_memory`, decrypted content included. -/
structure RetrieveResult where
  memory_id : String
  agent_id : String
  content : String
  tags : List String
  metadata : List (String × String)
  created_at : Nat
  expires_at : Option Nat
  access_count : Nat
  last_accessed : Option Nat
deriving Repr, DecidableEq

/-- `MemoryDatabase.retrieve_memory`: missing id → `None`; expired record is
deleted (lazy expiry) and reported `None`; a decryption exception is caught and
reported `None` with no write; on success the access counters are bumped and
persisted and the decrypted record returned. The second component is the store
as persisted after the call. -/
def retrieve_memory (decrypt : String → Option String) (memory_id : String) (now : Nat)
    (db : Db) : Option RetrieveResult × Db :=
  match lookup memory_id db.memories with
  | none => (none, db)
  | some memory =>
    if is_expired now memory.expires_at then
      (none, ⟨eraseKey memory_id db.memories, db.agents⟩)
    else
      match decrypt memory.content with
      | none => (none, db)
      | some decrypted_content =>
        let memory' := { memory with access_count := memory.access_count + 1,
                                     last_accessed := some now }
        (some ⟨memory_id, memory.agent_id, decrypted_content, memory.tags, memory.metadata,
               memory.created_at, memory.expires_at, memory'.access_count, some now⟩,
         ⟨upsert memory_id memory' db.memories, db.agents⟩)

/-- One search hit as returned by `search_memories`. -/
structure SearchResult where
  memory_id : String
  tags : List String
  metadata : List (String × String)
  content_preview : String
  created_at : Nat
  access_count : Nat
deriving Repr, DecidableEq

/-- `str.lower()` (ASCII model of Python's case folding), on the character
list so that it evaluates by structural recursion. -/
def lowerStr (s : String) : String := String.mk (s.toList.map Char.toLower)

/-- `q in s` on lists of characters: `q` occurs as a contiguous run of `s`. -/
def substrList (q : List Char) : List Char → Bool
  | [] => q.isEmpty
  | c :: rest => List.isPrefixOf q (c :: rest) || substrList q rest

/-- Python `query.lower() in content.lower()`. -/
def containsCI (content query : String) : Bool :=
  substrList (lowerStr query).toList (lowerStr content).toList

/-- `s[:n]` — the first `n` characters. -/
def takeStr (s : String) (n : Nat) : String := String.mk (s.toList.take n)

/-- The query branch of the search loop: with a (truthy) query, decrypt and
keep the record only if the lowered query occurs in the lowered plaintext,
previewing the first 200 characters; a decryption exception (`none`) silently
excludes the record; with no (or an empty, falsy) query the preview is the
`"[Encrypted]"` placeholder and nothing is decrypted. -/
def previewOf (decrypt : String → Option String) (query : Option String)
    (content : String) : Option String :=
  match query with
  | some q =>
    if q.isEmpty then some "[Encrypted]"
    else
      match decrypt content with
      | none => none
      | some dc => if containsCI dc q then some (takeStr dc 200) else none
  | none => some "[Encrypted]"

/-- Python `tags and not any(tag in memory["tags"] for tag in tags)`:
the tag filter applies only when the argument is a non-`None`, non-empty list
(truthy), and keeps a record when ANY requested tag is present (OR semantics). -/
def tagsFilterOut (tags : Option (List String)) (memTags : List String) : Bool :=
  match tags with
  | some (t :: ts) => !((t :: ts).any (fun tag => memTags.contains tag))
  | _ => false

/-- The result row built for a matching record inside the search loop. -/
def toSearchRow (decrypt : String → Option String) (query : Option String)
    (e : String × Memory) : SearchResult :=
  ⟨e.1, e.2.tags, e.2.metadata, (previewOf decrypt query e.2.content).getD "",
   e.2.created_at, e.2.access_count⟩

/-- The body of `search_memories`' `for` loop over `db["memories"].items()`,
with `results` as accumulator; after appending a hit the loop breaks as soon as
`len(results) >= limit`. -/
def searchLoop (decrypt : String → Option String) (agent_id : String)
    (query : Option String) (tags : Option (List String)) (limit : Int) (now : Nat) :
    List (String × Memory) → List SearchResult → List SearchResult
  | [], results => results
  | (memory_id, memory) :: rest, results =>
    if memory.agent_id ≠ agent_id then
      searchLoop decrypt agent_id query tags limit now rest results
    else if is_expired now memory.expires_at then
      searchLoop decrypt agent_id query tags limit now rest results
    else if tagsFilterOut tags memory.tags then
      searchLoop decrypt agent_id query tags limit now rest results
    else
      match previewOf decrypt query memory.content with
      | none => searchLoop decrypt agent_id query tags limit now rest results
      | some content_preview =>
        let results' := results ++
          [⟨memory_id, memory.tags, memory.metadata, content_preview,
            memory.created_at, memory.access_count⟩]
        if limit ≤ (results'.length : Int) then results'
        else searchLoop decrypt agent_id query tags limit now rest results'

/-- The sort relation of `results.sort(key=..., reverse=True)`:
newest (largest `created_at`) first. -/
def newerFirst (a b : SearchResult) : Prop := b.created_at ≤ a.created_at

instance : DecidableRel newerFirst := fun a b => Nat.decLe b.created_at a.created_at

instance : IsTotal SearchResult newerFirst := ⟨fun a b => Nat.le_total b.created_at a.created_at⟩

instance : IsTrans SearchResult newerFirst :=
  ⟨fun _ _ _ h1 h2 => Nat.le_trans h2 h1⟩

/-- Python's `list.sort` is a stable sort; `insertionSort` with `newerFirst`
is the same stable descending-by-`created_at` sort. -/
def sortNewestFirst (l : List SearchResult) : List SearchResult :=
  List.insertionSort newerFirst l

/-- `MemoryDatabase.search_memories`: the filter/append/break loop over the
store in insertion order, then an in-place stable sort by `created_at`
descending. -/
def search_memories (decrypt : String → Option String) (agent_id : String)
    (query : Option String) (tags : Option (List String)) (limit : Int) (now : Nat)
    (db : Db) : List SearchResult :=
  sortNewestFirst (searchLoop decrypt agent_id query tags limit now db.memories [])

/-- `MemoryDatabase.delete_memory`: `False` (store untouched) when the id is
absent or owned by someone else; otherwise remove the record and, when the
owner account exists, decrement its counters by 1 and by the ciphertext size. -/
def delete_memory (memory_id agent_id : String) (db : Db) : Bool × Db :=
  match lookup memory_id db.memories with
  | none => (false, db)
  | some memory =>
    if memory.agent_id ≠ agent_id then (false, db)
    else
      let storage_mb : ℚ := (memory.content.length : ℚ) / (1024 * 1024)
      let agents' := if (lookup agent_id db.agents).isSome
        then updateFirst agent_id
          (fun a => { a with total_memories := a.total_memories - 1,
                             storage_used_mb := a.storage_used_mb - storage_mb }) db.agents
        else db.agents
      (true, ⟨eraseKey memory_id db.memories, agents'⟩)

/-- `round(x, 2)` over exact rationals. -/
def round2 (q : ℚ) : ℚ := (round (q * 100) : ℚ) / 100

/-- The dict returned by `get_agent_stats`. -/
structure StatsResult where
  agent_id : String
  active_memories : Nat
  total_memories_stored : Int
  storage_used_mb : ℚ
  created_at : Nat
deriving Repr, DecidableEq

/-- The live recomputation in `get_agent_stats`: scan all records and count
those owned by `agent_id` and not expired. -/
def activeCount (agent_id : String) (now : Nat) (memories : List (String × Memory)) : Nat :=
  (memories.filter
    (fun e => e.2.agent_id == agent_id && !(is_expired now e.2.expires_at))).length

/-- `MemoryDatabase.get_agent_stats`: `None` for an unknown owner; otherwise
the lifetime counters plus the freshly recomputed count of active records. -/
def get_agent_stats (agent_id : String) (now : Nat) (db : Db) : Option StatsResult :=
  match lookup agent_id db.agents with
  | none => none
  | some agent =>
    some ⟨agent_id, activeCount agent_id now db.memories, agent.total_memories,
          round2 agent.storage_used_mb, agent.created_at⟩

/-- Modelled from the spec: the Credit Ledger's account record (§3 "API Key /
Credit Account") — `api_keys.py` (the `api_key_manager` used by
`src/payment.py`) is not under `src/`. -/
structure CreditAccount where
  key : String
  owner_email : String
  balance : Int
  created_at : Nat
deriving Repr, DecidableEq

/-- Modelled from the spec: the Credit Ledger's durable keyed storage of API
keys (§4.4) — `api_keys.py` is not under `src/`. -/
structure Ledger where
  accounts : List (String × CreditAccount)
deriving Repr, DecidableEq

/-- Modelled from the spec: `ValidateKey(key) -> account | Invalid`, lookup by
exact match (§4.4) — `api_keys.py` is not under `src/`. -/
def validate_key (ledger : Ledger) (key : String) : Option CreditAccount :=
  lookup key ledger.accounts

/-- Modelled from the spec: `DeductCredits(key, amount) -> bool`, a single
atomic check-and-subtract — if `balance >= amount`, subtract and succeed,
otherwise leave the balance untouched and fail (§4.4) — `api_keys.py` is not
under `src/`. The returned `Ledger` is the state after the atomic step. -/
def deduct_credits (ledger : Ledger) (key : String) (amount : Int) : Bool × Ledger :=
  match lookup key ledger.accounts with
  | none => (false, ledger)
  | some acct =>
    if amount ≤ acct.balance then
      (true, ⟨updateFirst key (fun a => { a with balance := a.balance - amount })
              ledger.accounts⟩)
    else (false, ledger)

/-- A maximally concurrent schedule of `n` identical unit debits: because each
debit is one atomic step, every interleaving of the `n` callers is some
sequential order of `n` `deduct_credits` steps, and identical steps make all
orders the same run. Returns (number of successes, final ledger). -/
def runDebits (key : String) (amount : Int) : Nat → Ledger → Nat × Ledger
  | 0, ledger => (0, ledger)
  | n + 1, ledger =>
    let r := deduct_credits ledger key amount
    let rest := runDebits key amount n r.2
    ((if r.1 then 1 else 0) + rest.1, rest.2)

/-- Fuelled scan for `replaceAll`; the fuel is an upper bound on the number of
characters still to be consumed, so recursion is structural (each step drops at
least one character and one unit of fuel). -/
def replaceAllFuel (p r : List Char) : Nat → List Char → List Char
  | _, [] => []
  | 0, s => s
  | fuel + 1, c :: s =>
    if p ≠ [] ∧ List.isPrefixOf p (c :: s) then
      r ++ replaceAllFuel p r fuel ((c :: s).drop p.length)
    else c :: replaceAllFuel p r fuel s

/-- Python `s.replace(pattern, repl)` on character lists: scan left to right,
replacing each non-overlapping occurrence of the (non-empty) pattern. -/
def replaceAll (p r : List Char) (s : List Char) : List Char :=
  replaceAllFuel p r s.length s

/-- Python `str.strip()`: drop leading and trailing whitespace. -/
def trimChars (l : List Char) : List Char :=
  ((l.dropWhile Char.isWhitespace).reverse.dropWhile Char.isWhitespace).reverse

/-- `authorization.startswith("Bearer ")`. -/
def startsWithBearer (a : String) : Bool :=
  List.isPrefixOf "Bearer ".toList a.toList

/-- `authorization.replace("Bearer ", "").strip()`. -/
def stripBearer (a : String) : String :=
  String.mk (trimChars (replaceAll "Bearer ".toList [] a.toList))

/-- `verify_payment_token` (src/payment.py): fail on a missing header or one
not starting with `"Bearer "`; strip the scheme, fail on an unknown key, else
return the result of the atomic debit at the operation's cost. The second
component is the ledger after the call. -/
def verify_payment_token (ledger : Ledger) (authorization : Option String)
    (cost_in_credits : Int) : Bool × Ledger :=
  match authorization with
  | none => (false, ledger)
  | some a =>
    if !(startsWithBearer a) then (false, ledger)
    else
      let api_key := stripBearer a
      match validate_key ledger api_key with
      | none => (false, ledger)
      | some _ => deduct_credits ledger api_key cost_in_credits

/-- The record-selection predicate of the search loop, as one boolean: owner
filter, not-expired filter, tag OR filter, and (when a query is active) the
decrypt-and-case-insensitive-substring filter. -/
def searchMatches (decrypt : String → Option String) (agent_id : String)
    (query : Option String) (tags : Option (List String)) (now : Nat)
    (e : String × Memory) : Bool :=
  decide (e.2.agent_id = agent_id) && !(is_expired now e.2.expires_at)
    && !(tagsFilterOut tags e.2.tags) && (previewOf decrypt query e.2.content).isSome

/-- The spec's Search pipeline, stated from its words (§4.2): take the first
`limit` records in storage (insertion) order that pass all four filters, then
sort that capped selection by `created_at` descending — "first `limit` matches
in storage order, then sorted". -/
def searchSpecCapThenSort (decrypt : String → Option String) (agent_id : String)
    (query : Option String) (tags : Option (List String)) (limit : Int) (now : Nat)
    (db : Db) : List SearchResult :=
  sortNewestFirst
    (((db.memories.filter (searchMatches decrypt agent_id query tags now)).take
        limit.toNat).map (toSearchRow decrypt query))

/-- The store with every currently-expired record physically removed — the
reference state in which expired records are literally absent. -/
def pruneExpired (now : Nat) (db : Db) : Db :=
  ⟨db.memories.filter (fun e => !(is_expired now e.2.expires_at)), db.agents⟩

/-! ### Concrete instances used by the witness theorems -/

/-- A toy cipher standing in for the Fernet encrypt parameter. -/
def exEncrypt (s : String) : String := "enc" ++ s

/-- The matching decrypt: succeeds exactly on `exEncrypt` images. -/
def exDecrypt (s : String) : Option String :=
  if List.isPrefixOf "enc".toList s.toList then some (String.mk (s.toList.drop 3))
  else none

/-- A decrypt that always raises — every ciphertext is corrupted. -/
def badDecrypt : String → Option String := fun _ => none

/-- A fixed id generator standing in for the SHA-256-derived id. -/
def exGenId : String → String → Nat → String := fun _ _ _ => "id00000000000000"

/-- Ledger with one key `"k"` holding exactly 1 credit. -/
def exLedger : Ledger := ⟨[("k", ⟨"k", "e@x", 1, 0⟩)]⟩

/-- Ledger with one valid key `"k"` whose balance 0 is below any positive cost. -/
def lowLedger : Ledger := ⟨[("k", ⟨"k", "e@x", 0, 0⟩)]⟩

/-- Three records for owner `"a"`, all matching, created at times 1 < 2 < 3,
stored in insertion order A, B, C (the spec's §8 search-ordering scenario). -/
def memA : Memory := ⟨"A", "a", exEncrypt "alpha", ["x"], [], 1, none, 0, none⟩

def memB : Memory := ⟨"B", "a", exEncrypt "beta", ["x"], [], 2, none, 0, none⟩

def memC : Memory := ⟨"C", "a", exEncrypt "gamma", ["x"], [], 3, none, 0, none⟩

def exAgent : Agent := ⟨"a", 3, 0, 0⟩

def exSearchDb : Db := ⟨[("A", memA), ("B", memB), ("C", memC)], [("a", exAgent)]⟩

/-- A record that is already expired at time 5 (`expires_at = 1 < 5`). -/
def memExp : Memory := ⟨"X", "a", exEncrypt "old", [], [], 0, some 1, 0, none⟩

def exExpDb : Db := ⟨[("X", memExp)], [("a", exAgent)]⟩

/-- A live record with owner account, for the delete witness
(ciphertext `"encct"` has length 5). -/
def memDel : Memory := ⟨"m1", "a", exEncrypt "ct", [], [], 0, none, 0, none⟩

def delAgent : Agent := ⟨"a", 1, 5 / (1024 * 1024), 0⟩

def exDelDb : Db := ⟨[("m1", memDel)], [("a", delAgent)]⟩

/-- A record whose ciphertext no decrypt accepts. -/
def memBad : Memory := ⟨"m2", "a", "garbage", [], [], 0, none, 0, none⟩

def exBadDb : Db := ⟨[("m2", memBad)], [("a", exAgent)]⟩

/-- The freshly initialised store (`_ensure_db_exists`). -/
def emptyDb : Db := ⟨[], []⟩

/-! ### Association-list lemmas -/

theorem lookup_upsert (k : String) (v : α) (l : List (String × α)) :
    lookup k (upsert k v l) = some v := by
  induction l with
  | nil => simp [lookup, upsert]
  | cons e rest ih =>
    obtain ⟨k', v'⟩ := e
    by_cases h : k' = k
    · simp [upsert, h, lookup]
    · simp [upsert, h, lookup, ih]

theorem mem_upsert {k : String} {v : α} {l : List (String × α)} :
    ∀ e ∈ upsert k v l, e ∈ l ∨ e = (k, v) := by
  induction l with
  | nil => simp [upsert]
  | cons e' rest ih =>
    obtain ⟨k', v'⟩ := e'
    intro e he
    by_cases h : k' = k
    · rw [upsert, if_pos h] at he
      rcases List.mem_cons.1 he with h1 | h1
      · right; exact h1
      · left; exact List.mem_cons_of_mem _ h1
    · rw [upsert, if_neg h] at he
      rcases List.mem_cons.1 he with h1 | h1
      · left; exact h1 ▸ List.mem_cons_self _ _
      · rcases ih e h1 with h2 | h2
        · left; exact List.mem_cons_of_mem _ h2
        · right; exact h2

theorem lookup_updateFirst (k : String) (f : α → α) (l : List (String × α)) :
    lookup k (updateFirst k f l) = (lookup k l).map f := by
  induction l with
  | nil => simp [lookup, updateFirst]
  | cons e rest ih =>
    obtain ⟨k', v'⟩ := e
    by_cases h : k' = k
    · simp [updateFirst, h, lookup]
    · simp [updateFirst, h, lookup, ih]

theorem lookup_eq_none_of_not_mem {k : String} {l : List (String × α)}
    (h : k ∉ l.map Prod.fst) : lookup k l = none := by
  induction l with
  | nil => rfl
  | cons e rest ih =>
    obtain ⟨k', v'⟩ := e
    simp only [List.map_cons, List.mem_cons] at h
    push_neg at h
    rw [lookup, if_neg (fun he => h.1 he.symm), ih h.2]

theorem lookup_eraseKey_of_nodup {k : String} {l : List (String × α)}
    (hnd : (l.map Prod.fst).Nodup) : lookup k (eraseKey k l) = none := by
  induction l with
  | nil => rfl
  | cons e rest ih =>
    obtain ⟨k', v'⟩ := e
    simp only [List.map_cons, List.nodup_cons] at hnd
    by_cases h : k' = k
    · rw [eraseKey, if_pos h]
      exact lookup_eq_none_of_not_mem (h ▸ hnd.1)
    · rw [eraseKey, if_neg h, lookup, if_neg h]
      exact ih hnd.2

/-! ### C1: atomicity of the credit debit -/

/-- Once the balance is below the amount, every further debit fails and the
ledger never moves again. -/
theorem runDebits_stuck {key : String} {amount : Int} {ledger : Ledger}
    {acct : CreditAccount} (h : lookup key ledger.accounts = some acct)
    (hlt : acct.balance < amount) :
    ∀ n, runDebits key amount n ledger = (0, ledger) := by
  intro n
  induction n with
  | zero => rfl
  | succ m ih =>
    have hnle : ¬ (amount ≤ acct.balance) := by omega
    have hd : deduct_credits ledger key amount = (false, ledger) := by
      simp [deduct_credits, h, hnle]
    simp [runDebits, hd, ih]

/-- C1 (claims C1): a `DeductCredits`-style debit is one atomic
check-and-subtract, so a schedule of `j` concurrent unit debits against a
balance of 1 credit is some sequential order of `j` atomic steps; at every
schedule length `j`, at most one debit has succeeded (`min j 1`), exactly one
for `j ≥ 1`, and the account's balance is 1 before the first debit and 0 ever
after — never negative, never two successes. -/
theorem deduct_credits_atomic_unit_debits (ledger : Ledger) (key : String)
    (acct : CreditAccount) (h : lookup key ledger.accounts = some acct)
    (hb : acct.balance = 1) (j : Nat) :
    (runDebits key 1 j ledger).1 = min j 1 ∧
    validate_key (runDebits key 1 j ledger).2 key =
      some { acct with balance := if j = 0 then 1 else 0 } := by
  cases j with
  | zero =>
    refine ⟨rfl, ?_⟩
    have : ({ acct with balance := if 0 = 0 then 1 else 0 } : CreditAccount) = acct := by
      cases acct
      simp_all
    rw [this]
    exact h
  | succ m =>
    have hle : (1 : Int) ≤ acct.balance := by omega
    have hd : deduct_credits ledger key 1 =
        (true, ⟨updateFirst key (fun a => { a with balance := a.balance - 1 })
                ledger.accounts⟩) := by
      simp [deduct_credits, h, hle]
    have hlk' : lookup key (updateFirst key
        (fun a => { a with balance := a.balance - 1 }) ledger.accounts) =
        some { acct with balance := 0 } := by
      rw [lookup_updateFirst, h, Option.map_some']
      simp [hb]
    have hstuck := @runDebits_stuck key 1
      ⟨updateFirst key (fun a => { a with balance := a.balance - 1 }) ledger.accounts⟩
      { acct with balance := 0 } hlk' (by simp) m
    constructor
    · simp [runDebits, hd, hstuck]
    · simp [runDebits, hd, hstuck, validate_key, hlk']

/-- Witness for C1: the spec's §8 scenario — one key holding 1 credit, hit by
50 unit debits: exactly one success and a final balance of 0. -/
theorem deduct_credits_atomic_unit_debits_witness :
    (runDebits "k" 1 50 exLedger).1 = 1 ∧
    validate_key (runDebits "k" 1 50 exLedger).2 "k" = some ⟨"k", "e@x", 0, 0⟩ := by
  obtain ⟨h1, h2⟩ :=
    deduct_credits_atomic_unit_debits exLedger "k" ⟨"k", "e@x", 1, 0⟩ rfl rfl 50
  refine ⟨by simpa using h1, by simpa using h2⟩

/-! ### Search-loop lemmas -/

/-- One step of the search loop: a record passing all four filters is appended
(and the loop stops when the appended list reaches `limit`); any other record
is skipped. -/
theorem searchLoop_cons (decrypt : String → Option String) (agent_id : String)
    (query : Option String) (tags : Option (List String)) (limit : Int) (now : Nat)
    (e : String × Memory) (rest : List (String × Memory)) (acc : List SearchResult) :
    searchLoop decrypt agent_id query tags limit now (e :: rest) acc =
      if searchMatches decrypt agent_id query tags now e then
        (if limit ≤ ((acc.length + 1 : Nat) : Int)
         then acc ++ [toSearchRow decrypt query e]
         else searchLoop decrypt agent_id query tags limit now rest
                (acc ++ [toSearchRow decrypt query e]))
      else searchLoop decrypt agent_id query tags limit now rest acc := by
  obtain ⟨memory_id, m⟩ := e
  by_cases h1 : m.agent_id = agent_id
  · cases h2 : is_expired now m.expires_at
    · cases h3 : tagsFilterOut tags m.tags
      · cases h4 : previewOf decrypt query m.content with
        | none =>
          have hm : searchMatches decrypt agent_id query tags now (memory_id, m) = false := by
            simp [searchMatches, h4]
          simp [searchLoop, h1, h2, h3, h4, hm]
        | some pv =>
          have hm : searchMatches decrypt agent_id query tags now (memory_id, m) = true := by
            simp [searchMatches, h1, h2, h3, h4]
          have hrow : toSearchRow decrypt query (memory_id, m) =
              ⟨memory_id, m.tags, m.metadata, pv, m.created_at, m.access_count⟩ := by
            simp [toSearchRow, h4]
          simp [searchLoop, h1, h2, h3, h4, hm, hrow]
      · have hm : searchMatches decrypt agent_id query tags now (memory_id, m) = false := by
          simp [searchMatches, h3]
        simp [searchLoop, h1, h2, h3, hm]
    · have hm : searchMatches decrypt agent_id query tags now (memory_id, m) = false := by
        simp [searchMatches, h2]
      simp [searchLoop, h1, h2, hm]
  · have hm : searchMatches decrypt agent_id query tags now (memory_id, m) = false := by
      simp [searchMatches, h1]
    simp [searchLoop, h1, hm]

/-- The search loop never looks at an expired record: running it on the store
with all expired records physically removed gives the same result. -/
theorem searchLoop_prune (decrypt : String → Option String) (agent_id : String)
    (query : Option String) (tags : Option (List String)) (limit : Int) (now : Nat) :
    ∀ (l : List (String × Memory)) (acc : List SearchResult),
      searchLoop decrypt agent_id query tags limit now l acc =
        searchLoop decrypt agent_id query tags limit now
          (l.filter (fun e => !(is_expired now e.2.expires_at))) acc := by
  intro l
  induction l with
  | nil => intro acc; rfl
  | cons e rest ih =>
    intro acc
    cases he : is_expired now e.2.expires_at
    · rw [List.filter_cons_of_pos (by simp [he])]
      rw [searchLoop_cons, searchLoop_cons]
      by_cases hm : searchMatches decrypt agent_id query tags now e
      · rw [if_pos hm, if_pos hm]
        by_cases hstop : limit ≤ ((acc.length + 1 : Nat) : Int)
        · rw [if_pos hstop, if_pos hstop]
        · rw [if_neg hstop, if_neg hstop, ih]
      · rw [if_neg hm, if_neg hm, ih]
    · rw [List.filter_cons_of_neg (by simp [he])]
      have hm : searchMatches decrypt agent_id query tags now e = false := by
        simp [searchMatches, he]
      rw [searchLoop_cons, if_neg (by simp [hm]), ih]

/-- The live `active_memories` recomputation ignores expired records. -/
theorem activeCount_prune (agent_id : String) (now : Nat)
    (l : List (String × Memory)) :
    activeCount agent_id now (l.filter (fun e => !(is_expired now e.2.expires_at))) =
      activeCount agent_id now l := by
  unfold activeCount
  rw [List.filter_filter]
  congr 1
  apply List.filter_congr
  intro e _
  cases hq : is_expired now e.2.expires_at <;> simp [hq]

/-- `get_agent_stats` is blind to physically present expired records. -/
theorem get_agent_stats_prune (agent_id : String) (now : Nat) (db : Db) :
    get_agent_stats agent_id now (pruneExpired now db) =
      get_agent_stats agent_id now db := by
  unfold get_agent_stats pruneExpired
  cases h : lookup agent_id db.agents <;> simp [h, activeCount_prune]

/-- C3 (claims C3): a record whose `expires_at` lies strictly in the past is
logically absent from every read path: `retrieve_memory` reports `None`,
and both `search_memories` and `get_agent_stats` behave exactly as on the
store with every expired record physically removed — so the record is omitted
from search results and excluded from the `active_memories` count even while
still physically present. -/
theorem expired_record_logically_absent (decrypt : String → Option String)
    (agent_id : String) (query : Option String) (tags : Option (List String))
    (limit : Int) (now : Nat) (db : Db) (memory_id : String) (m : Memory) (t : Nat)
    (hlk : lookup memory_id db.memories = some m)
    (hexp : m.expires_at = some t) (ht : t < now) :
    (retrieve_memory decrypt memory_id now db).1 = none ∧
    search_memories decrypt agent_id query tags limit now db =
      search_memories decrypt agent_id query tags limit now (pruneExpired now db) ∧
    get_agent_stats agent_id now db =
      get_agent_stats agent_id now (pruneExpired now db) := by
  refine ⟨?_, ?_, (get_agent_stats_prune agent_id now db).symm⟩
  · have he : is_expired now m.expires_at = true := by simp [hexp, is_expired, ht]
    simp [retrieve_memory, hlk, he]
  · unfold search_memories pruneExpired
    rw [searchLoop_prune]

/-- Witness for C3: the record `"X"` (`expires_at = 1`) is expired at time 5,
so retrieval reports `None` and search and stats agree with the pruned store. -/
theorem expired_record_logically_absent_witness :
    (retrieve_memory exDecrypt "X" 5 exExpDb).1 = none ∧
    search_memories exDecrypt "a" none none 10 5 exExpDb =
      search_memories exDecrypt "a" none none 10 5 (pruneExpired 5 exExpDb) ∧
    get_agent_stats "a" 5 exExpDb = get_agent_stats "a" 5 (pruneExpired 5 exExpDb) :=
  expired_record_logically_absent exDecrypt "a" none none 10 5 exExpDb "X" memExp 1
    rfl rfl (by decide)

/-! ### C4: the Delete contract -/

/-- C4 (claims C4): `delete_memory` returns `False` and leaves the whole store
unchanged when the id is absent or the record belongs to a different owner; on
success it removes the record and decrements the owner's `total_memories` by
one and `storage_used_mb` by the ciphertext size, and deleting the same id
again returns `False`. -/
theorem delete_memory_contract (db : Db) (memory_id agent_id : String)
    (hnd : (db.memories.map Prod.fst).Nodup) :
    (lookup memory_id db.memories = none →
      delete_memory memory_id agent_id db = (false, db)) ∧
    (∀ m, lookup memory_id db.memories = some m → m.agent_id ≠ agent_id →
      delete_memory memory_id agent_id db = (false, db)) ∧
    (∀ m acct, lookup memory_id db.memories = some m → m.agent_id = agent_id →
      lookup agent_id db.agents = some acct →
      delete_memory memory_id agent_id db =
        (true, ⟨eraseKey memory_id db.memories,
                updateFirst agent_id (fun a =>
                  { a with total_memories := a.total_memories - 1,
                           storage_used_mb := a.storage_used_mb -
                             (m.content.length : ℚ) / (1024 * 1024) }) db.agents⟩) ∧
      lookup agent_id (updateFirst agent_id (fun a =>
          { a with total_memories := a.total_memories - 1,
                   storage_used_mb := a.storage_used_mb -
                     (m.content.length : ℚ) / (1024 * 1024) }) db.agents) =
        some { acct with total_memories := acct.total_memories - 1,
                         storage_used_mb := acct.storage_used_mb -
                           (m.content.length : ℚ) / (1024 * 1024) } ∧
      (delete_memory memory_id agent_id
        ⟨eraseKey memory_id db.memories,
         updateFirst agent_id (fun a =>
           { a with total_memories := a.total_memories - 1,
                    storage_used_mb := a.storage_used_mb -
                      (m.content.length : ℚ) / (1024 * 1024) }) db.agents⟩).1 =
        false) := by
  refine ⟨?_, ?_, ?_⟩
  · intro h
    simp [delete_memory, h]
  · intro m hm hne
    simp [delete_memory, hm, hne]
  · intro m acct hm hag hacct
    have hsome : (lookup agent_id db.agents).isSome = true := by simp [hacct]
    refine ⟨by simp [delete_memory, hm, hag, hsome], ?_, ?_⟩
    · rw [lookup_updateFirst, hacct, Option.map_some']
    · have hgone : lookup memory_id (eraseKey memory_id db.memories) = none :=
        lookup_eraseKey_of_nodup hnd
      simp [delete_memory, hgone]

/-- Witness for C4: on a one-record store, deleting a missing id fails and
mutates nothing, deleting with the wrong owner fails and mutates nothing,
deleting the real record succeeds, and deleting it a second time fails. -/
theorem delete_memory_contract_witness :
    delete_memory "zz" "a" exDelDb = (false, exDelDb) ∧
    delete_memory "m1" "b" exDelDb = (false, exDelDb) ∧
    (delete_memory "m1" "a" exDelDb).1 = true ∧
    (delete_memory "m1" "a" (delete_memory "m1" "a" exDelDb).2).1 = false := by
  have hs := (delete_memory_contract exDelDb "m1" "a" (by decide)).2.2
    memDel delAgent rfl rfl rfl
  refine ⟨(delete_memory_contract exDelDb "zz" "a" (by decide)).1 rfl,
          (delete_memory_contract exDelDb "m1" "b" (by decide)).2.1
            memDel rfl (by decide), ?_, ?_⟩
  · rw [hs.1]
  · rw [hs.1]
    exact hs.2.2

/-! ### C5: the Store summary and what is persisted -/

/-- C5 (claims C5): the summary returned by `store_memory` consists of exactly
the id, owner, tags, metadata, timestamps and a status string — its type
(`StoreResult`) has no field for the plaintext or the ciphertext; and the only
record the call adds to persistent storage carries `encrypt content`, never the
plaintext: every record in the post-store state was either already present or
holds the ciphertext as its `content`. -/
theorem store_summary_and_ciphertext_only (encrypt : String → String)
    (genId : String → String → Nat → String) (agent_id content : String)
    (tags? : Option (List String)) (metadata? : Option (List (String × String)))
    (ttl_days : Int) (now : Nat) (db : Db) :
    (store_memory encrypt genId agent_id content tags? metadata? ttl_days now db).1 =
      ⟨genId agent_id content now, agent_id, tags?.getD [], metadata?.getD [], now,
       (if 0 < ttl_days then some (now + ttl_days.toNat) else none), "stored"⟩ ∧
    lookup (genId agent_id content now)
        (store_memory encrypt genId agent_id content tags? metadata? ttl_days now db).2.memories =
      some ⟨genId agent_id content now, agent_id, encrypt content, tags?.getD [],
            metadata?.getD [], now,
            (if 0 < ttl_days then some (now + ttl_days.toNat) else none), 0, none⟩ ∧
    ∀ e ∈ (store_memory encrypt genId agent_id content tags? metadata?
            ttl_days now db).2.memories,
      e ∈ db.memories ∨ e.2.content = encrypt content := by
  refine ⟨rfl, lookup_upsert _ _ _, ?_⟩
  intro e he
  rcases mem_upsert e he with h | h
  · exact Or.inl h
  · exact Or.inr (by rw [h])

/-! ### C6: corrupted ciphertext fails closed -/

/-- C6 (claims C6): when the stored ciphertext is malformed, truncated or
corrupted — i.e. decryption raises, modelled as `decrypt` returning `none` —
`retrieve_memory` returns `None` (NotFound) instead of propagating an error. -/
theorem retrieve_corrupt_ciphertext_not_found (decrypt : String → Option String)
    (memory_id : String) (now : Nat) (db : Db) (m : Memory)
    (hlk : lookup memory_id db.memories = some m)
    (hexp : is_expired now m.expires_at = false)
    (hdec : decrypt m.content = none) :
    (retrieve_memory decrypt memory_id now db).1 = none := by
  simp [retrieve_memory, hlk, hexp, hdec]

/-- Witness for C6: record `"m2"` holds ciphertext no decrypt accepts;
retrieval reports `None`. -/
theorem retrieve_corrupt_ciphertext_not_found_witness :
    (retrieve_memory badDecrypt "m2" 5 exBadDb).1 = none :=
  retrieve_corrupt_ciphertext_not_found badDecrypt "m2" 5 exBadDb memBad rfl rfl rfl

/-! ### C10: decrypt failure leaves the store untouched -/

/-- C10 (claims C10): when retrieval fails because decryption of the record's
ciphertext raises, nothing is written back: the persisted store is exactly the
pre-call store, the record is still present, and its `access_count` and
`last_accessed` are unchanged — the read-side mutation happens only on the
success path. -/
theorem retrieve_decrypt_failure_preserves_store (decrypt : String → Option String)
    (memory_id : String) (now : Nat) (db : Db) (m : Memory)
    (hlk : lookup memory_id db.memories = some m)
    (hexp : is_expired now m.expires_at = false)
    (hdec : decrypt m.content = none) :
    retrieve_memory decrypt memory_id now db = (none, db) ∧
    lookup memory_id (retrieve_memory decrypt memory_id now db).2.memories = some m := by
  have h1 : retrieve_memory decrypt memory_id now db = (none, db) := by
    simp [retrieve_memory, hlk, hexp, hdec]
  exact ⟨h1, by rw [h1]; exact hlk⟩

/-- Witness for C10: the failed retrieval of `"m2"` returns the store as it
was, the record (with `access_count = 0`, `last_accessed = None`) intact. -/
theorem retrieve_decrypt_failure_preserves_store_witness :
    retrieve_memory badDecrypt "m2" 7 exBadDb = (none, exBadDb) ∧
    lookup "m2" (retrieve_memory badDecrypt "m2" 7 exBadDb).2.memories = some memBad :=
  retrieve_decrypt_failure_preserves_store badDecrypt "m2" 7 exBadDb memBad rfl rfl rfl

/-- The search loop with spare capacity collects exactly the first
`limit - |acc|` matching records in storage order. -/
theorem searchLoop_eq_take (decrypt : String → Option String) (agent_id : String)
    (query : Option String) (tags : Option (List String)) (limit : Int) (now : Nat) :
    ∀ (l : List (String × Memory)) (acc : List SearchResult),
      (acc.length : Int) < limit →
      searchLoop decrypt agent_id query tags limit now l acc =
        acc ++ ((l.filter (searchMatches decrypt agent_id query tags now)).take
                  (limit - acc.length).toNat).map (toSearchRow decrypt query) := by
  intro l
  induction l with
  | nil => intro acc h; simp [searchLoop]
  | cons e rest ih =>
    intro acc hacc
    rw [searchLoop_cons]
    by_cases hm : searchMatches decrypt agent_id query tags now e
    · rw [if_pos hm, List.filter_cons_of_pos hm]
      by_cases hstop : limit ≤ ((acc.length + 1 : Nat) : Int)
      · rw [if_pos hstop]
        have h1 : (limit - acc.length).toNat = 1 := by push_cast at hstop ⊢; omega
        rw [h1]
        simp
      · rw [if_neg hstop]
        have hacc' : (((acc ++ [toSearchRow decrypt query e]).length : Nat) : Int) < limit := by
          push_cast at hstop ⊢
          simp only [List.length_append, List.length_cons, List.length_nil]
          push_cast
          omega
        rw [ih _ hacc']
        have h2 : (limit - acc.length).toNat =
            (limit - ((acc ++ [toSearchRow decrypt query e]).length : Int)).toNat + 1 := by
          push_cast at hstop ⊢
          simp only [List.length_append, List.length_cons, List.length_nil]
          push_cast
          omega
        rw [h2, List.take_succ_cons, List.map_cons]
        simp
    · rw [if_neg hm, List.filter_cons_of_neg (by simpa using hm)]
      exact ih acc hacc

/-- C2 (claims C2): for every positive `limit`, `search_memories` returns
exactly the spec's cap-then-sort pipeline — the first `limit` records in
storage (insertion) order passing the owner, not-expired, tag-OR and
case-insensitive-substring filters, sorted afterwards by `created_at`
descending — and its output is indeed sorted newest-first. -/
theorem search_cap_then_sort (decrypt : String → Option String) (agent_id : String)
    (query : Option String) (tags : Option (List String)) (limit : Int) (now : Nat)
    (db : Db) (hlim : 1 ≤ limit) :
    search_memories decrypt agent_id query tags limit now db =
      searchSpecCapThenSort decrypt agent_id query tags limit now db ∧
    List.Sorted newerFirst (search_memories decrypt agent_id query tags limit now db) := by
  constructor
  · unfold search_memories searchSpecCapThenSort
    congr 1
    have h := searchLoop_eq_take decrypt agent_id query tags limit now db.memories []
      (by simp; omega)
    simpa using h
  · unfold search_memories sortNewestFirst
    exact List.sorted_insertionSort newerFirst _

/-- Witness for C2: the spec's §8 scenario — records A, B, C created at
1 < 2 < 3 in storage order A, B, C, all matching, `limit = 2`: the result is
the cap-then-sort pipeline's answer `[B, A]` (not the true-newest `[C, B]`). -/
theorem search_cap_then_sort_witness :
    search_memories exDecrypt "a" none none 2 5 exSearchDb =
      searchSpecCapThenSort exDecrypt "a" none none 2 5 exSearchDb ∧
    List.Sorted newerFirst (search_memories exDecrypt "a" none none 2 5 exSearchDb) ∧
    search_memories exDecrypt "a" none none 2 5 exSearchDb =
      [⟨"B", ["x"], [], "[Encrypted]", 2, 0⟩, ⟨"A", ["x"], [], "[Encrypted]", 1, 0⟩] := by
  obtain ⟨h1, h2⟩ := search_cap_then_sort exDecrypt "a" none none 2 5 exSearchDb (by decide)
  exact ⟨h1, h2, by decide⟩

/-! ### C9: non-positive limit returns exactly one match -/

/-- With `limit ≤ 0` the loop stops right after its first appended hit. -/
theorem searchLoop_nonpos (decrypt : String → Option String) (agent_id : String)
    (query : Option String) (tags : Option (List String)) (limit : Int) (now : Nat)
    (hlim : limit ≤ 0) :
    ∀ (l : List (String × Memory)) (e : String × Memory) (es : List (String × Memory)),
      l.filter (searchMatches decrypt agent_id query tags now) = e :: es →
      searchLoop decrypt agent_id query tags limit now l [] =
        [toSearchRow decrypt query e] := by
  intro l
  induction l with
  | nil => intro e es h; simp at h
  | cons f rest ih =>
    intro e es hf
    rw [searchLoop_cons]
    by_cases hm : searchMatches decrypt agent_id query tags now f
    · rw [List.filter_cons_of_pos hm] at hf
      obtain ⟨rfl, -⟩ := List.cons_eq_cons.mp hf
      rw [if_pos hm, if_pos (by simp; omega)]
      simp
    · rw [List.filter_cons_of_neg (by simpa using hm)] at hf
      rw [if_neg hm]
      exact ih e es hf

/-- C9 (claims C9): because the `len(results) >= limit` check runs only after
a result has been appended, a search with `limit ≤ 0` and at least one
matching record returns exactly one result — the first match in storage
order — rather than none or all of them. -/
theorem search_nonpositive_limit_one_result (decrypt : String → Option String)
    (agent_id : String) (query : Option String) (tags : Option (List String))
    (limit : Int) (now : Nat) (db : Db) (e : String × Memory)
    (es : List (String × Memory)) (hlim : limit ≤ 0)
    (hfil : db.memories.filter (searchMatches decrypt agent_id query tags now) = e :: es) :
    search_memories decrypt agent_id query tags limit now db =
      [toSearchRow decrypt query e] := by
  unfold search_memories
  rw [searchLoop_nonpos decrypt agent_id query tags limit now hlim db.memories e es hfil]
  rfl

/-- Witness for C9: `limit = 0` over the three-record store with query
`"ALPH"` (matched only by record A) returns exactly that first match. -/
theorem search_nonpositive_limit_one_result_witness :
    search_memories exDecrypt "a" (some "ALPH") none 0 5 exSearchDb =
      [⟨"A", ["x"], [], "alpha", 1, 0⟩] := by
  have h := search_nonpositive_limit_one_result exDecrypt "a" (some "ALPH") none 0 5
    exSearchDb ("A", memA) [] (by decide) (by decide)
  rw [h]
  decide

/-! ### C8: TTL semantics -/

/-- C8 (claims C8): a record stored with `ttl_days > 0` gets
`expires_at = created_at + ttl_days` and becomes unretrievable at every time
strictly past that; a record stored with `ttl_days = 0` gets no `expires_at`
and stays retrievable at every later time, however large. -/
theorem ttl_expiry_semantics (encrypt : String → String)
    (genId : String → String → Nat → String) (decrypt : String → Option String)
    (agent_id content : String) (tags? : Option (List String))
    (metadata? : Option (List (String × String))) (ttl_days : Int) (now : Nat)
    (db : Db) (hdec : decrypt (encrypt content) = some content) :
    (0 < ttl_days →
      lookup (genId agent_id content now)
          (store_memory encrypt genId agent_id content tags? metadata?
            ttl_days now db).2.memories =
        some ⟨genId agent_id content now, agent_id, encrypt content, tags?.getD [],
              metadata?.getD [], now, some (now + ttl_days.toNat), 0, none⟩ ∧
      ∀ now', now + ttl_days.toNat < now' →
        (retrieve_memory decrypt (genId agent_id content now) now'
          (store_memory encrypt genId agent_id content tags? metadata?
            ttl_days now db).2).1 = none) ∧
    (ttl_days = 0 →
      lookup (genId agent_id content now)
          (store_memory encrypt genId agent_id content tags? metadata?
            ttl_days now db).2.memories =
        some ⟨genId agent_id content now, agent_id, encrypt content, tags?.getD [],
              metadata?.getD [], now, none, 0, none⟩ ∧
      ∀ now',
        (retrieve_memory decrypt (genId agent_id content now) now'
          (store_memory encrypt genId agent_id content tags? metadata?
            ttl_days now db).2).1 =
          some ⟨genId agent_id content now, agent_id, content, tags?.getD [],
                metadata?.getD [], now, none, 1, some now'⟩) := by
  have h0 : lookup (genId agent_id content now)
      (store_memory encrypt genId agent_id content tags? metadata?
        ttl_days now db).2.memories =
      some ⟨genId agent_id content now, agent_id, encrypt content, tags?.getD [],
            metadata?.getD [], now,
            (if 0 < ttl_days then some (now + ttl_days.toNat) else none), 0, none⟩ :=
    lookup_upsert _ _ _
  constructor
  · intro htt
    rw [if_pos htt] at h0
    refine ⟨h0, ?_⟩
    intro now' hn
    have he : is_expired now' (some (now + ttl_days.toNat)) = true := by
      simp [is_expired, hn]
    simp [retrieve_memory, h0, he]
  · intro htt
    rw [if_neg (by omega)] at h0
    refine ⟨h0, ?_⟩
    intro now'
    simp [retrieve_memory, h0, is_expired, hdec]

/-- Witness for C8: storing `"hello"` at time 10 with `ttl_days = 5` makes it
expire at 15 and unretrievable at 16; storing it with `ttl_days = 0` leaves it
retrievable even at time 999999. -/
theorem ttl_expiry_semantics_witness :
    (lookup (exGenId "a" "hello" 10)
        (store_memory exEncrypt exGenId "a" "hello" none none 5 10 emptyDb).2.memories =
      some ⟨exGenId "a" "hello" 10, "a", exEncrypt "hello", [], [], 10, some 15, 0, none⟩ ∧
     (retrieve_memory exDecrypt (exGenId "a" "hello" 10) 16
        (store_memory exEncrypt exGenId "a" "hello" none none 5 10 emptyDb).2).1 = none) ∧
    (retrieve_memory exDecrypt (exGenId "a" "hello" 10) 999999
        (store_memory exEncrypt exGenId "a" "hello" none none 0 10 emptyDb).2).1 =
      some ⟨exGenId "a" "hello" 10, "a", "hello", [], [], 10, none, 1, some 999999⟩ := by
  have h5 := (ttl_expiry_semantics exEncrypt exGenId exDecrypt "a" "hello" none none
    5 10 emptyDb (by decide)).1 (by decide)
  have h0 := (ttl_expiry_semantics exEncrypt exGenId exDecrypt "a" "hello" none none
    0 10 emptyDb (by decide)).2 rfl
  exact ⟨⟨h5.1, h5.2 16 (by decide)⟩, h0.2 999999⟩

/-! ### C7: insufficient credits versus generic denial -/

/-- Counterexample to C7 as stated: on a ledger holding the perfectly valid
key `"k"` with balance 0, an authorization attempt costing 1 credit produces
`(false, ledger)` — byte-for-byte the same outcome the Access Gate returns for
a missing credential and for an unknown key. The caller cannot distinguish
"payment required" from generic denial. -/
theorem insufficient_credits_indistinguishable_cex :
    validate_key lowLedger "k" = some ⟨"k", "e@x", 0, 0⟩ ∧
    verify_payment_token lowLedger (some "Bearer k") 1 = (false, lowLedger) ∧
    verify_payment_token lowLedger none 1 = (false, lowLedger) ∧
    verify_payment_token lowLedger (some "Bearer unknown") 1 = (false, lowLedger) ∧
    verify_payment_token lowLedger (some "k") 1 = (false, lowLedger) := by
  refine ⟨by decide, by decide, by decide, by decide, by decide⟩

/-- C7 amended (claims C7): for every authorization attempt with a valid key
whose balance is below the operation's credit cost, the Access Gate returns
the same generic failure — `false` with the ledger untouched — as for a
missing, malformed or unknown credential; the caller cannot distinguish
insufficient credits from generic denial. -/
theorem insufficient_credits_generic_denial (ledger : Ledger) (a : String)
    (cost : Int) (acct : CreditAccount)
    (h1 : startsWithBearer a = true)
    (h2 : validate_key ledger (stripBearer a) = some acct)
    (h3 : acct.balance < cost) :
    verify_payment_token ledger (some a) cost = (false, ledger) ∧
    verify_payment_token ledger none cost = (false, ledger) := by
  have h2' : lookup (stripBearer a) ledger.accounts = some acct := h2
  have hnle : ¬ (cost ≤ acct.balance) := by omega
  refine ⟨?_, rfl⟩
  simp [verify_payment_token, h1, validate_key, h2', deduct_credits, hnle]

/-- Witness for C7's amended claim at the concrete low-balance ledger. -/
theorem insufficient_credits_generic_denial_witness :
    verify_payment_token lowLedger (some "Bearer k") 1 = (false, lowLedger) ∧
    verify_payment_token lowLedger none 1 = (false, lowLedger) :=
  insufficient_credits_generic_denial lowLedger "Bearer k" 1 ⟨"k", "e@x", 0, 0⟩
    (by decide) (by decide) (by decide)

end MemDb
